import Mathlib

/-!
# walk-wrapper: the builder, the table adapter and the CSV helpers

A shallow embedding of `examples/Wrapper/wrapper.go` and
`examples/Wrapper/main.go`.

* Go strings are lists of characters (`GoString`); Go `int` is `Int`.
* A method with a pointer receiver `(a *App)` becomes a function that
  returns the updated `App`.
* The widget toolkit (`walk`), the operating system and the Go standard
  library are outside the repository.  Declarative widget values are plain
  data; the outcome of each system call is an explicit argument; the part
  of `encoding/csv` used by `main.go` (a `Reader` and a `Writer` with their
  default settings) is modelled in the section on CSV.
-/

namespace WalkWrapper

/-- A Go string. -/
abbrev GoString := List Char

/-! ## wrapper.go: declarative widget values -/

/-- `declarative.TableViewColumn`, with the two fields the program sets. -/
structure TableViewColumn where
  Title : GoString
  Width : Int
deriving Repr, DecidableEq

/-- Layouts used by the wrapper: `VBox{}` and `HBox{MarginsZero: ...}`. -/
inductive Layout where
  | VBox (MarginsZero : Bool)
  | HBox (MarginsZero : Bool)
deriving Repr, DecidableEq

/-- The `declarative.Widget` values the wrapper builds.  `η` is the type of
the `AssignTo` pointers handed in by the caller, `κ` the type of click
callbacks (`func()`), `μ` the type of table models (`interface{}`).
Fields the wrapper does not set keep their Go zero value and are left out. -/
inductive Widget (η κ μ : Type) where
  | Label (Text : GoString)
  | LineEdit (AssignTo : η)
  | TextEdit (AssignTo : η) (VScroll : Bool)
  | PushButton (Text : GoString) (OnClicked : κ)
  | CheckBox (Text : GoString) (AssignTo : η)
  | ComboBox (AssignTo : η) (Model : List GoString) (CurrentIndex : Int)
  | VSpacer
  | HSpacer
  | Composite (Layout : Layout) (Children : List (Widget η κ μ))
  | TableView (AssignTo : η) (AlternatingRowBG : Bool)
      (Columns : List TableViewColumn) (Model : μ)

/-- `type App struct`.  The `Window` field is written by the toolkit while
the window runs and plays no part in building, so it is left out. -/
structure App (η κ μ : Type) where
  Title : GoString := []
  Width : Int := 0
  Height : Int := 0
  IconPath : GoString := []
  Children : List (Widget η κ μ) := []

/-- `declarative.Size`. -/
structure Size where
  Width : Int
  Height : Int
deriving Repr, DecidableEq

/-- The `declarative.MainWindow` value that `Run` hands to the toolkit.
`Icon` is `none` when the field is left unset (a nil `Property`). -/
structure MainWindow (η κ μ : Type) where
  Title : GoString
  MinSize : Size
  Layout : Layout
  Children : List (Widget η κ μ)
  Icon : Option GoString

section Builder

variable {η κ μ : Type}

/-- `NewGui(title, w, h)`. -/
def NewGui (title : GoString) (w h : Int) : App η κ μ :=
  { Title := title, Width := w, Height := h }

/-- `(a *App) SetIcon(path)`.  `statOk` tells whether `os.Stat(path)`
returned a nil error at the time of the call. -/
def App.SetIcon (a : App η κ μ) (statOk : Bool) (path : GoString) : App η κ μ :=
  if statOk then { a with IconPath := path } else a

/-- `(a *App) Run()`: the window description built before the blocking
`mw.Run()` of the toolkit is entered. -/
def App.Run (a : App η κ μ) : MainWindow η κ μ :=
  let mw : MainWindow η κ μ :=
    { Title := a.Title
      MinSize := { Width := a.Width, Height := a.Height }
      Layout := Layout.VBox false
      Children := a.Children
      Icon := none }
  if a.IconPath ≠ [] then { mw with Icon := some a.IconPath } else mw

/-- `(a *App) AddRow(buildFunc)`.  The callback is a Go closure: it
receives a pointer to the temporary builder `&App{}`, and it may also reach
the outer builder `a` it was written next to.  So `buildFunc row outer` takes
the builder it is handed and the outer builder as they are when it starts,
and returns both as they are when it ends.  `a.Children` is read only after
the callback has returned. -/
def App.AddRow (a : App η κ μ)
    (buildFunc : App η κ μ → App η κ μ → App η κ μ × App η κ μ) : App η κ μ :=
  let done := buildFunc {} a
  let tempRow : App η κ μ := done.1
  let outer : App η κ μ := done.2
  { outer with
    Children := outer.Children ++ [Widget.Composite (Layout.HBox true) tempRow.Children] }

/-- `(a *App) AddLabel(txt)`. -/
def App.AddLabel (a : App η κ μ) (txt : GoString) : App η κ μ :=
  { a with Children := a.Children ++ [Widget.Label txt] }

/-- `(a *App) AddInput(ptr)`. -/
def App.AddInput (a : App η κ μ) (ptr : η) : App η κ μ :=
  { a with Children := a.Children ++ [Widget.LineEdit ptr] }

/-- `(a *App) AddEdit(ptr)`. -/
def App.AddEdit (a : App η κ μ) (ptr : η) : App η κ μ :=
  { a with Children := a.Children ++ [Widget.TextEdit ptr true] }

/-- `(a *App) AddButton(txt, onClick)`. -/
def App.AddButton (a : App η κ μ) (txt : GoString) (onClick : κ) : App η κ μ :=
  { a with Children := a.Children ++ [Widget.PushButton txt onClick] }

/-- `(a *App) AddCheck(txt, ptr)`. -/
def App.AddCheck (a : App η κ μ) (txt : GoString) (ptr : η) : App η κ μ :=
  { a with Children := a.Children ++ [Widget.CheckBox txt ptr] }

/-- `(a *App) AddCombo(items, ptr)`. -/
def App.AddCombo (a : App η κ μ) (items : List GoString) (ptr : η) : App η κ μ :=
  { a with Children := a.Children ++ [Widget.ComboBox ptr items 0] }

/-- `(a *App) AddSpacer()`. -/
def App.AddSpacer (a : App η κ μ) : App η κ μ :=
  { a with Children := a.Children ++ [Widget.VSpacer] }

/-- `(a *App) AddHSpacer()`. -/
def App.AddHSpacer (a : App η κ μ) : App η κ μ :=
  { a with Children := a.Children ++ [Widget.HSpacer] }

/-- `(a *App) AddTable(ptr, model, cols)`. -/
def App.AddTable (a : App η κ μ) (ptr : η) (model : μ) (cols : List TableViewColumn) :
    App η κ μ :=
  { a with Children := a.Children ++ [Widget.TableView ptr true cols model] }

/-- The callback `main` passes to `AddRow`, with `1` and `2` standing for the
two click handlers: two buttons around a horizontal spacer, all added to the
builder it is handed; the outer builder is not touched. -/
def mainRow (row outer : App Nat Nat Nat) : App Nat Nat Nat × App Nat Nat Nat :=
  (((row.AddButton "Save to CSV".toList 1).AddHSpacer).AddButton "Exit".toList 2, outer)

/-- A callback that adds a button to the builder it is handed and, through
its closure, a label to the outer builder:
`a.AddRow(func(row *App) { row.AddButton("Exit", f); a.AddLabel("x") })`. -/
def reachingRow (row outer : App Nat Nat Nat) : App Nat Nat Nat × App Nat Nat Nat :=
  (row.AddButton "Exit".toList 2, outer.AddLabel "x".toList)

/-- A run of `SetIcon` calls, each with the outcome of its `os.Stat`. -/
def setIcons (a : App η κ μ) : List (Bool × GoString) → App η κ μ
  | [] => a
  | (statOk, path) :: rest => setIcons (a.SetIcon statOk path) rest

/-- The effect of an add operation: `b` is `a` with the one descriptor `w`
appended, the window metadata untouched. -/
def AppendsOne (a b : App η κ μ) (w : Widget η κ μ) : Prop :=
  b.Children = a.Children ++ [w] ∧ b.Title = a.Title ∧ b.Width = a.Width ∧
    b.Height = a.Height ∧ b.IconPath = a.IconPath

end Builder

/-! ## main.go: records and the table model -/

/-- `type User struct`. -/
structure User where
  Name : GoString
  City : GoString
  Note : GoString
deriving Repr, DecidableEq

/-- `type UserModel struct`.  Every element of `items` in the program comes
from a `&User{...}` literal, so the slice of pointers is a list of records. -/
structure UserModel where
  items : List User
deriving Repr, DecidableEq

/-- `NewUserModel()`. -/
def NewUserModel : UserModel := { items := [] }

/-- `(m *UserModel) RowCount()`. -/
def UserModel.RowCount (m : UserModel) : Int := m.items.length

/-- An `interface{}` value returned by `Value`: a string or `nil`. -/
inductive Cell where
  | str (s : GoString)
  | nil
deriving Repr, DecidableEq

/-- `(m *UserModel) Value(row, col)`.  The result is `none` when the index
expression `m.items[row]` panics (row out of range). -/
def UserModel.Value (m : UserModel) (row col : Int) : Option Cell :=
  if row < 0 then none
  else
    match m.items[row.toNat]? with
    | none => none
    | some item =>
      if col = 0 then some (Cell.str item.Name)
      else if col = 1 then some (Cell.str item.City)
      else if col = 2 then some (Cell.str item.Note)
      else some Cell.nil

/-! ## encoding/csv, as used by main.go

The package belongs to the Go standard library, not to the repository; the
definitions below follow its `reader.go` and `writer.go`.  `csv.NewWriter`
and `csv.NewReader` are used with their default settings: `Comma = ','`, no
comment character, `UseCRLF = false`, `LazyQuotes = false`,
`TrimLeadingSpace = false`, `FieldsPerRecord = 0`.  Strings are taken to be
valid UTF-8, so that the byte-wise searches of the package for the quote, the
delimiter, CR and LF are searches for characters. -/

/-- Line feed. -/
def LF : Char := Char.ofNat 10

/-- Carriage return. -/
def CR : Char := Char.ofNat 13

/-- The double quote. -/
def dquote : Char := Char.ofNat 34

/-- The field delimiter. -/
def comma : Char := Char.ofNat 44

/-- `unicode.IsSpace`: in Latin-1 the characters TAB, LF, VT, FF, CR, space,
U+0085 and U+00A0; above it the other characters with the White_Space
property. -/
def isSpace (r : Char) : Bool :=
  let n := r.toNat
  if n ≤ 0xFF then
    (9 ≤ n && n ≤ 13) || n == 0x20 || n == 0x85 || n == 0xA0
  else
    n == 0x1680 || (0x2000 ≤ n && n ≤ 0x200A) || n == 0x2028 || n == 0x2029 ||
      n == 0x202F || n == 0x205F || n == 0x3000

/-- The characters that force a field into quotes. -/
def special (c : Char) : Bool := c == LF || c == CR || c == dquote || c == comma

/-- `(w *Writer) fieldNeedsQuotes(field)`: not for the empty field; always
for the field backslash-dot; for a field holding a delimiter, quote, CR or
LF; otherwise when the first character is a space. -/
def fieldNeedsQuotes (field : GoString) : Bool :=
  match field with
  | [] => false
  | r1 :: _ =>
    if field = [Char.ofNat 92, Char.ofNat 46] then true
    else if field.any special then true
    else isSpace r1

/-- The body of a quoted field as `Writer.Write` emits it: a quote is
doubled, every other character (CR and LF too, as `UseCRLF` is false) is
copied. -/
def writeQuoted : GoString → GoString
  | [] => []
  | c :: field =>
    if c = dquote then dquote :: dquote :: writeQuoted field else c :: writeQuoted field

/-- One field as `Writer.Write` emits it. -/
def writeField (field : GoString) : GoString :=
  if fieldNeedsQuotes field then dquote :: (writeQuoted field ++ [dquote]) else field

/-- The loop `for n, field := range record` of `Writer.Write`: a delimiter
before every field but the first. -/
def writeFields : Nat → List GoString → GoString
  | _, [] => []
  | n, field :: rest =>
    (if 0 < n then [comma] else []) ++ writeField field ++ writeFields (n + 1) rest

/-- The bytes `(w *Writer) Write(record)` hands to its buffered writer: the
fields, then a line feed.  They reach the file when the buffer is flushed
("Writes are buffered, so Flush must eventually be called to ensure that the
record is written to the underlying io.Writer"). -/
def Writer.Write (record : List GoString) : GoString := writeFields 0 record ++ [LF]

/-- The errors of `Reader.Read`. -/
inductive CsvError where
  | ErrBareQuote
  | ErrQuote
  | ErrFieldCount
deriving Repr, DecidableEq

/-- `bufio.Reader.ReadSlice` for the delimiter LF: the bytes through the
first LF and `true`, or all the bytes and `false` when the input ends before
a LF (the error `io.EOF`); then the bytes left unread. -/
def readSlice : GoString → GoString × Bool × GoString
  | [] => ([], false, [])
  | c :: s => if c = LF then ([LF], true, s) else ((c :: (readSlice s).1), (readSlice s).2)

/-- First repair of `(r *Reader) readLine()`: when the input ended before a
LF, a final CR of the slice is dropped. -/
def dropFinalCR (found : Bool) (raw : GoString) : GoString :=
  if found = false ∧ raw.getLast? = some CR then raw.dropLast else raw

/-- Second repair of `(r *Reader) readLine()`: CR LF at the end of the line
becomes LF. -/
def normCRLF (ln : GoString) : GoString :=
  let n := ln.length
  if 2 ≤ n ∧ ln[n - 2]? = some CR ∧ ln[n - 1]? = some LF then ln.take (n - 2) ++ [LF]
  else ln

/-- `(r *Reader) readLine()`: the line, `none` for `io.EOF`, and the input
left. -/
def readLine (inp : GoString) : Option GoString × GoString :=
  let r := readSlice inp
  if r.1.length = 0 then (none, r.2.2) else (some (normCRLF (dropFinalCR r.2.1 r.1)), r.2.2)

/-- The lines that successive calls of `(r *Reader) readLine()` return
before the end of the input.  The input is cut after every LF; a CR right
before that LF is dropped ("Carriage returns before newline characters are
silently removed"); in a last line without LF a final CR is dropped.
`readLines_readLine` shows that this is `readLine` called again and again. -/
def readLines : GoString → List GoString
  | [] => []
  | [c] => if c = LF then [[LF]] else if c = CR then [[]] else [[c]]
  | c :: d :: s =>
    if c = LF then [LF] :: readLines (d :: s)
    else if c = CR ∧ d = LF then [LF] :: readLines s
    else
      match readLines (d :: s) with
      | [] => [[c]]
      | l :: ls => (c :: l) :: ls

/-- Where the `parseField` loop of `readRecord` stands: at the start of a
field, inside a field that did not open with a quote, or inside a quoted
field. -/
inductive Mode where
  | fieldStart
  | bare
  | quoted
deriving Repr, DecidableEq

/-- What the `parseField` loop has reached at the end of a line. -/
inductive LineResult where
  | record (fields : List GoString)
  | openQuote (fields : List GoString) (cur : GoString)
  | fail (e : CsvError)
deriving Repr, DecidableEq

/-- The `parseField` loop of `readRecord` on the rest of one line.
`fields` are the fields completed so far and `cur` the text of the field
being read.

* Non-quoted field: it runs to the next delimiter or to the end of the
  line (without the LF); a quote inside it is `ErrBareQuote`.
* Quoted field: two quotes stand for one; a quote before a delimiter ends
  the field; a quote at the end of the line ends the record; a quote before
  anything else is `ErrQuote`; a line without a closing quote is taken
  whole (LF included) and the field goes on with the next line. -/
def scan : Mode → List GoString → GoString → GoString → LineResult
  | Mode.quoted, fields, cur, [] => LineResult.openQuote fields cur
  | Mode.quoted, fields, cur, c :: cs =>
    if c = dquote then
      match cs with
      | [] => LineResult.record (fields ++ [cur])
      | d :: ds =>
        if d = dquote then scan Mode.quoted fields (cur ++ [dquote]) ds
        else if d = comma then scan Mode.fieldStart (fields ++ [cur]) [] ds
        else if d = LF ∧ ds = [] then LineResult.record (fields ++ [cur])
        else LineResult.fail CsvError.ErrQuote
    else scan Mode.quoted fields (cur ++ [c]) cs
  | _, fields, cur, [] => LineResult.record (fields ++ [cur])
  | m, fields, cur, c :: cs =>
    if c = comma then scan Mode.fieldStart (fields ++ [cur]) [] cs
    else if c = LF ∧ cs = [] then LineResult.record (fields ++ [cur])
    else if c = dquote then
      (if m = Mode.fieldStart then scan Mode.quoted fields [] cs
       else LineResult.fail CsvError.ErrBareQuote)
    else scan Mode.bare fields (cur ++ [c]) cs

/-- The loop of `(r *Reader) ReadAll()` over the lines still unread, with
`readRecord` inlined.  `fpr` is `r.FieldsPerRecord` (0 until the first
record sets it), `pending` the quoted field left open by the previous line,
`records` the records read so far.

* Between records an empty line is skipped.
* A record whose field count differs from a positive `FieldsPerRecord` is
  `ErrFieldCount`; the first record sets `FieldsPerRecord` ("If
  FieldsPerRecord is 0, Read sets it to the number of fields in the first
  record, so that future records must have the same field count").
* The input ending inside a quoted field is `ErrQuote`.
* On any error `ReadAll` returns the error and no records. -/
def readAllLines : Nat → Option (List GoString × GoString) → List (List GoString) →
    List GoString → Except CsvError (List (List GoString))
  | _, none, records, [] => Except.ok records
  | _, some _, _, [] => Except.error CsvError.ErrQuote
  | fpr, pending, records, line :: lines =>
    if pending = none ∧ (line = [] ∨ line = [LF]) then readAllLines fpr none records lines
    else
      let r := match pending with
        | none => scan Mode.fieldStart [] [] line
        | some (fields, cur) => scan Mode.quoted fields cur line
      match r with
      | LineResult.record fields =>
        if 0 < fpr ∧ fields.length ≠ fpr then Except.error CsvError.ErrFieldCount
        else readAllLines (if fpr = 0 then fields.length else fpr) none (records ++ [fields]) lines
      | LineResult.openQuote fields cur => readAllLines fpr (some (fields, cur)) records lines
      | LineResult.fail e => Except.error e

/-- `(r *Reader) ReadAll()` of a fresh reader over the bytes `inp`. -/
def Reader.ReadAll (inp : GoString) : Except CsvError (List (List GoString)) :=
  readAllLines 0 none [] (readLines inp)

/-! ## main.go: the CSV helpers -/

/-- `os.Open("users.csv")`.  `file` is the content of the file, `none` when
it does not exist; `fault` is the error of an open that fails for another
reason (permissions, ...). -/
def osOpen (fault : Option GoString) (file : Option GoString) : Except GoString GoString :=
  match fault with
  | some err => Except.error err
  | none =>
    match file with
    | none => Except.error "open users.csv: no such file or directory".toList
    | some content => Except.ok content

/-- The loop `for _, record := range records` of `loadUsers`. -/
def usersOf : List (List GoString) → List User
  | [] => []
  | record :: rest =>
    if 3 ≤ record.length then
      { Name := record.getD 0 [], City := record.getD 1 [], Note := record.getD 2 [] } ::
        usersOf rest
    else usersOf rest

/-- `loadUsers()`.  The error of `ReadAll` is discarded (`records, _ :=`),
and with it `records` is nil. -/
def loadUsers (fault : Option GoString) (file : Option GoString) : List User :=
  match osOpen fault file with
  | Except.error _ => []
  | Except.ok content =>
    let records := match Reader.ReadAll content with
      | Except.ok rs => rs
      | Except.error _ => []
    usersOf records

/-- A dialog shown to the user: an information message box with a text. -/
inductive Dialog where
  | info (txt : GoString)
deriving Repr, DecidableEq

/-- `Msg(txt)` of wrapper.go: the information dialog it shows. -/
def Msg (txt : GoString) : Dialog := Dialog.info txt

/-- What the system does during one call of `saveUserToCSV`:
`openErr` is the error of `os.OpenFile`, `writeErr` the error returned by
`writer.Write` (the writer is buffered, so this is the error of a write
forced while the record was being buffered), and `flushOk` tells whether the
deferred `writer.Flush()` and `f.Close()`, whose errors the function never
looks at, put the buffered line into the file. -/
structure SaveCalls where
  openErr : Option GoString
  writeErr : Option GoString
  flushOk : Bool
deriving Repr, DecidableEq

/-- A call in which nothing fails. -/
def SaveCalls.clean : SaveCalls := { openErr := none, writeErr := none, flushOk := true }

/-- The outcome of `saveUserToCSV`: its result, the file afterwards and the
dialogs it has shown. -/
structure SaveResult where
  ok : Bool
  file : Option GoString
  dialogs : List Dialog
deriving Repr, DecidableEq

/-- `saveUserToCSV(u)`.  The file is opened with `O_APPEND|O_CREATE`, so a
successful open leaves it existing; a failed write or flush is taken to add
nothing to it. -/
def saveUserToCSV (sys : SaveCalls) (file : Option GoString) (u : User) : SaveResult :=
  match sys.openErr with
  | some err => { ok := false, file := file, dialogs := [Msg ("Error: ".toList ++ err)] }
  | none =>
    let existing := file.getD []
    match sys.writeErr with
    | some _ => { ok := false, file := some existing, dialogs := [] }
    | none =>
      { ok := true
        file := some (if sys.flushOk then existing ++ Writer.Write [u.Name, u.City, u.Note]
                      else existing)
        dialogs := [] }

/-- A run of `saveUserToCSV` calls: the file after them. -/
def saveAll (file : Option GoString) : List (SaveCalls × User) → Option GoString
  | [] => file
  | (sys, u) :: rest => saveAll (saveUserToCSV sys file u).file rest

/-- Every CR that stands right before a LF removed. -/
def dropCRLF : GoString → GoString
  | [] => []
  | [c] => [c]
  | c :: d :: s => if c = CR ∧ d = LF then LF :: dropCRLF s else c :: dropCRLF (d :: s)

/-- A record as `loadUsers` returns it after `saveUserToCSV` wrote it. -/
def User.reloaded (u : User) : User :=
  { Name := dropCRLF u.Name, City := dropCRLF u.City, Note := dropCRLF u.Note }

/-- No CR stands right before a LF. -/
def crlfFree : GoString → Bool
  | [] => true
  | [_] => true
  | c :: d :: s => !(c == CR && d == LF) && crlfFree (d :: s)

/-! ## main.go: the handler of the button "Save to CSV" -/

/-- What the handler reads and writes: the global model, the number of
`PublishRowsReset` calls, the text of the three input widgets, the dialogs
shown so far and the file. -/
structure Session where
  model : UserModel
  resets : Nat
  nameInp : GoString
  cityCombo : GoString
  descEdit : GoString
  dialogs : List Dialog
  file : Option GoString
deriving Repr, DecidableEq

/-- The record the handler builds from the inputs. -/
def Session.formUser (s : Session) : User :=
  { Name := s.nameInp, City := s.cityCombo, Note := s.descEdit }

/-- The click handler of "Save to CSV". -/
def onSave (sys : SaveCalls) (s : Session) : Session :=
  let u := s.formUser
  let r := saveUserToCSV sys s.file u
  if r.ok then
    { model := { items := s.model.items ++ [u] }
      resets := s.resets + 1
      nameInp := []
      cityCombo := s.cityCombo
      descEdit := []
      dialogs := s.dialogs ++ r.dialogs ++ [Msg "Saved successfully!".toList]
      file := r.file }
  else
    { s with dialogs := s.dialogs ++ r.dialogs, file := r.file }

/-- The model `main` starts with: `NewUserModel()` with `items` set to what
`loadUsers()` returns. -/
def initialModel (fault : Option GoString) (file : Option GoString) : UserModel :=
  { NewUserModel with items := loadUsers fault file }

/-! ## The records of the scenarios -/

/-- The first record of the save scenario. -/
def alice : User := { Name := "Alice".toList, City := "London".toList, Note := "VIP".toList }

/-- The second record of the save scenario, with an empty note. -/
def bob : User := { Name := "Bob".toList, City := "Tokyo".toList, Note := [] }

/-- A record whose note has two lines, as a multi-line text box on Windows
returns them (CR LF between the lines). -/
def carol : User :=
  { Name := "Carol".toList, City := "Berlin".toList, Note := "line1\r\nline2".toList }

/-- The session of the save scenario after Alice was saved, with Bob typed
into the form. -/
def bobTyped : Session :=
  { model := { items := [alice] }, resets := 1, nameInp := "Bob".toList,
    cityCombo := "Tokyo".toList, descEdit := [], dialogs := [Msg "Saved successfully!".toList],
    file := some "Alice,London,VIP\n".toList }

/-- A call of `saveUserToCSV` in which the file cannot be opened. -/
def openDenied : SaveCalls :=
  { openErr := some "open users.csv: Access is denied.".toList, writeErr := none,
    flushOk := false }

/-- A call of `saveUserToCSV` in which the record is buffered but its flush
fails. -/
def flushLost : SaveCalls := { openErr := none, writeErr := none, flushOk := false }

/-! ## The reader seen from the stream

`readAllLines` works line by line.  For reasoning about what it reads from
a stream of characters it is restated as a walk along the stream. -/

/-- What `readAllLines` does with the outcome of `scan` on a line, `lines`
being the lines after it. -/
def afterLine (fpr : Nat) (records : List (List GoString)) (lines : List GoString) :
    LineResult → Except CsvError (List (List GoString))
  | LineResult.record fields =>
    if 0 < fpr ∧ fields.length ≠ fpr then Except.error CsvError.ErrFieldCount
    else readAllLines (if fpr = 0 then fields.length else fpr) none (records ++ [fields]) lines
  | LineResult.openQuote fields cur => readAllLines fpr (some (fields, cur)) records lines
  | LineResult.fail e => Except.error e

/-- The rest of the current line and the lines after it, for the stream `s`
of characters still unread. -/
def cursor (s : GoString) : GoString × List GoString :=
  match readLines s with
  | [] => ([], [])
  | l :: ls => (l, ls)

/-- The reader in the middle of a record, with the stream `s` still unread. -/
def run (fpr : Nat) (records : List (List GoString)) (m : Mode) (fields : List GoString)
    (cur : GoString) (s : GoString) : Except CsvError (List (List GoString)) :=
  afterLine fpr records (cursor s).2 (scan m fields cur (cursor s).1)

/-- The content of a file that holds the lines of the records `us`. -/
def fileOf : List User → GoString
  | [] => []
  | u :: us => Writer.Write [u.Name, u.City, u.Note] ++ fileOf us

/-- Every call of a run of `saveUserToCSV` calls returns true, and its
deferred flush puts the line into the file. -/
def savesSucceed (file : Option GoString) : List (SaveCalls × User) → Bool
  | [] => true
  | (sys, u) :: rest =>
    (saveUserToCSV sys file u).ok && sys.flushOk &&
      savesSucceed (saveUserToCSV sys file u).file rest

/-! ## Theorems: the builder -/

section BuilderTheorems

variable {η κ μ : Type}

theorem AppendsOne.length {a b : App η κ μ} {w : Widget η κ μ} (h : AppendsOne a b w) :
    b.Children.length = a.Children.length + 1 := by
  rw [h.1]; simp

theorem AppendsOne.earlier {a b : App η κ μ} {w : Widget η κ μ} (h : AppendsOne a b w)
    (i : Nat) (hi : i < a.Children.length) : b.Children[i]? = a.Children[i]? := by
  rw [h.1, List.getElem?_append_left hi]

theorem AppendsOne.last {a b : App η κ μ} {w : Widget η κ μ} (h : AppendsOne a b w) :
    b.Children[a.Children.length]? = some w := by
  rw [h.1]; simp

/-- C1, as amended: `AddRow` runs the callback on a fresh builder with no
descriptors, and then appends to the outer list, as the callback left it, one
horizontal container whose children are the nested builder's descriptors in
order.  For every callback that leaves the outer builder as it was, the
outer list grows by exactly one entry, that container; its earlier entries
and the window metadata stay as they were, and when the callback appends the
descriptors `ws` to the builder it is handed, the container's children are
exactly `ws`. -/
theorem AddRow_appends_one_row (a : App η κ μ)
    (buildFunc : App η κ μ → App η κ μ → App η κ μ × App η κ μ)
    (h : (buildFunc {} a).2 = a) :
    ({} : App η κ μ).Children = [] ∧
    AppendsOne a (a.AddRow buildFunc)
      (Widget.Composite (Layout.HBox true) (buildFunc {} a).1.Children) ∧
    (a.AddRow buildFunc).Children.length = a.Children.length + 1 ∧
    (∀ i, i < a.Children.length → (a.AddRow buildFunc).Children[i]? = a.Children[i]?) ∧
    (a.AddRow buildFunc).Children[a.Children.length]? =
      some (Widget.Composite (Layout.HBox true) (buildFunc {} a).1.Children) ∧
    (∀ ws, (∀ b o : App η κ μ, (buildFunc b o).1.Children = b.Children ++ ws) →
      (a.AddRow buildFunc).Children =
        a.Children ++ [Widget.Composite (Layout.HBox true) ws]) := by
  have hA : AppendsOne a (a.AddRow buildFunc)
      (Widget.Composite (Layout.HBox true) (buildFunc {} a).1.Children) := by
    simp [AppendsOne, App.AddRow, h]
  refine ⟨rfl, hA, hA.length, hA.earlier, hA.last, ?_⟩
  intro ws hws
  have := hws {} a
  rw [hA.1, this]
  rfl

/-- The row of buttons of `main`, built on a label: the outer list gets one
container holding the button, the spacer and the button. -/
theorem AddRow_appends_one_row_witness :
    (((NewGui "t".toList 600 600 : App Nat Nat Nat).AddLabel "a".toList).AddRow
        mainRow).Children =
      [Widget.Label "a".toList,
       Widget.Composite (Layout.HBox true)
        [Widget.PushButton "Save to CSV".toList 1, Widget.HSpacer,
         Widget.PushButton "Exit".toList 2]] :=
  (AddRow_appends_one_row ((NewGui "t".toList 600 600 : App Nat Nat Nat).AddLabel "a".toList)
    mainRow rfl).2.2.2.2.2
    [Widget.PushButton "Save to CSV".toList 1, Widget.HSpacer,
      Widget.PushButton "Exit".toList 2]
    (fun b o => by simp [mainRow, App.AddButton, App.AddHSpacer])

/-- C1 as stated fails for a callback that reaches the outer builder: with
`a.AddRow(func(row *App) { row.AddButton("Exit", f); a.AddLabel("x") })` on a
builder holding one label, the outer list grows by two entries, not one, and
the label the callback added stands directly in it, before the container. -/
theorem AddRow_callback_reaches_outer :
    (((NewGui "t".toList 600 600 : App Nat Nat Nat).AddLabel "a".toList).AddRow
        reachingRow).Children =
      [Widget.Label "a".toList, Widget.Label "x".toList,
       Widget.Composite (Layout.HBox true) [Widget.PushButton "Exit".toList 2]] ∧
    (((NewGui "t".toList 600 600 : App Nat Nat Nat).AddLabel "a".toList).AddRow
        reachingRow).Children.length =
      ((NewGui "t".toList 600 600 : App Nat Nat Nat).AddLabel "a".toList).Children.length + 2 ∧
    (((NewGui "t".toList 600 600 : App Nat Nat Nat).AddLabel "a".toList).AddRow
        reachingRow).Children.length ≠
      ((NewGui "t".toList 600 600 : App Nat Nat Nat).AddLabel "a".toList).Children.length + 1 :=
  ⟨rfl, rfl, by decide⟩

/-- C2: every add operation other than `AddRow` leaves the descriptor list
as it was and appends exactly one descriptor of its kind carrying the
arguments of the call; title, width, height and icon path are unchanged. -/
theorem add_operations_append_one (a : App η κ μ) (txt : GoString) (ptr : η) (onClick : κ)
    (items : List GoString) (model : μ) (cols : List TableViewColumn) :
    AppendsOne a (a.AddLabel txt) (Widget.Label txt) ∧
    AppendsOne a (a.AddInput ptr) (Widget.LineEdit ptr) ∧
    AppendsOne a (a.AddEdit ptr) (Widget.TextEdit ptr true) ∧
    AppendsOne a (a.AddButton txt onClick) (Widget.PushButton txt onClick) ∧
    AppendsOne a (a.AddCheck txt ptr) (Widget.CheckBox txt ptr) ∧
    AppendsOne a (a.AddCombo items ptr) (Widget.ComboBox ptr items 0) ∧
    AppendsOne a a.AddSpacer Widget.VSpacer ∧
    AppendsOne a a.AddHSpacer Widget.HSpacer ∧
    AppendsOne a (a.AddTable ptr model cols) (Widget.TableView ptr true cols model) ∧
    (∀ (b : App η κ μ) (w : Widget η κ μ), AppendsOne a b w →
      b.Children.length = a.Children.length + 1 ∧
      (∀ i, i < a.Children.length → b.Children[i]? = a.Children[i]?) ∧
      b.Children[a.Children.length]? = some w) :=
  ⟨⟨rfl, rfl, rfl, rfl, rfl⟩, ⟨rfl, rfl, rfl, rfl, rfl⟩, ⟨rfl, rfl, rfl, rfl, rfl⟩,
   ⟨rfl, rfl, rfl, rfl, rfl⟩, ⟨rfl, rfl, rfl, rfl, rfl⟩, ⟨rfl, rfl, rfl, rfl, rfl⟩,
   ⟨rfl, rfl, rfl, rfl, rfl⟩, ⟨rfl, rfl, rfl, rfl, rfl⟩, ⟨rfl, rfl, rfl, rfl, rfl⟩,
   fun _ _ h => ⟨h.length, h.earlier, h.last⟩⟩

theorem setIcons_missing (a : App η κ μ) (calls : List (Bool × GoString))
    (h : ∀ c ∈ calls, c.1 = false) : setIcons a calls = a := by
  induction calls generalizing a with
  | nil => rfl
  | cons c rest ih =>
    obtain ⟨ok, path⟩ := c
    have hok : ok = false := h (ok, path) (List.mem_cons_self _ _)
    subst hok
    simp only [setIcons, App.SetIcon, Bool.false_eq_true, if_false]
    exact ih a (fun c hc => h c (List.mem_cons_of_mem _ hc))

/-- C10: `SetIcon(path)` stores `path` as the icon path when the file exists
at the call and otherwise changes nothing; no other field is ever changed.
`Run` gives the window an icon exactly when the stored path is not empty, and
then it is the stored path.  A builder from `NewGui` on which `SetIcon` only
met missing files runs without an icon.  The window `Run` builds has the
builder's title, its width and height as minimum size, and its descriptor
list as it stands. -/
theorem SetIcon_and_Run (a : App η κ μ) (path : GoString) :
    (a.SetIcon true path).IconPath = path ∧
    a.SetIcon false path = a ∧
    (∀ statOk, (a.SetIcon statOk path).Title = a.Title ∧
      (a.SetIcon statOk path).Width = a.Width ∧ (a.SetIcon statOk path).Height = a.Height ∧
      (a.SetIcon statOk path).Children = a.Children) ∧
    (∀ statOk, (a.SetIcon statOk path).IconPath = path ↔ (statOk = true ∨ a.IconPath = path)) ∧
    (a.Run.Icon ≠ none ↔ a.IconPath ≠ []) ∧
    (a.IconPath ≠ [] → a.Run.Icon = some a.IconPath) ∧
    (∀ (title : GoString) (w h : Int) (calls : List (Bool × GoString)),
      (∀ c ∈ calls, c.1 = false) →
      (setIcons (NewGui title w h : App η κ μ) calls).Run.Icon = none) ∧
    a.Run.Title = a.Title ∧
    a.Run.MinSize = { Width := a.Width, Height := a.Height } ∧
    a.Run.Children = a.Children := by
  refine ⟨rfl, rfl, ?_, ?_, ?_, ?_, ?_, ?_, ?_, ?_⟩
  · intro statOk; cases statOk <;> exact ⟨rfl, rfl, rfl, rfl⟩
  · intro statOk
    cases statOk
    · simp [App.SetIcon]
    · simp [App.SetIcon]
  · by_cases h : a.IconPath = [] <;> simp [App.Run, h]
  · intro h; simp [App.Run, h]
  · intro title w h calls hc
    rw [setIcons_missing _ calls hc]
    rfl
  · by_cases h : a.IconPath = [] <;> simp [App.Run, h]
  · by_cases h : a.IconPath = [] <;> simp [App.Run, h]
  · by_cases h : a.IconPath = [] <;> simp [App.Run, h]

/-- The builder of `main` when `app.ico` is missing: the window has no icon;
had the file been there, the icon would be `app.ico`. -/
theorem SetIcon_and_Run_witness :
    (setIcons (NewGui "User Management System".toList 600 600 : App Nat Nat Nat)
      [(false, "app.ico".toList)]).Run.Icon = none ∧
    (((NewGui "User Management System".toList 600 600 : App Nat Nat Nat).SetIcon true
      "app.ico".toList).IconPath ≠ [] →
     ((NewGui "User Management System".toList 600 600 : App Nat Nat Nat).SetIcon true
      "app.ico".toList).Run.Icon = some "app.ico".toList) :=
  ⟨(SetIcon_and_Run (NewGui [] 0 0 : App Nat Nat Nat) []).2.2.2.2.2.2.1
      "User Management System".toList 600 600 [(false, "app.ico".toList)]
      (by intro c hc; simp at hc; simp [hc]),
   (SetIcon_and_Run ((NewGui "User Management System".toList 600 600 :
      App Nat Nat Nat).SetIcon true "app.ico".toList) []).2.2.2.2.2.1⟩

end BuilderTheorems

/-! ## Theorems: the table model and the save handler -/

theorem Value_in_range (m : UserModel) (row col : Int) (h0 : 0 ≤ row)
    (h1 : row < m.RowCount) :
    ∃ item, m.items[row.toNat]? = some item ∧
      m.Value row col = some
        (if col = 0 then Cell.str item.Name
         else if col = 1 then Cell.str item.City
         else if col = 2 then Cell.str item.Note
         else Cell.nil) := by
  have hlt : row.toNat < m.items.length := by
    unfold UserModel.RowCount at h1
    omega
  refine ⟨m.items[row.toNat], List.getElem?_eq_getElem hlt, ?_⟩
  unfold UserModel.Value
  rw [if_neg (by omega), List.getElem?_eq_getElem hlt]
  by_cases c0 : col = 0
  · simp [c0]
  · by_cases c1 : col = 1
    · simp [c1]
    · by_cases c2 : col = 2
      · simp [c2]
      · simp [c0, c1, c2]

/-- C8: for every adapter state, the empty one included, `RowCount` is the
length of the record list; and for a row inside the list `Value` does not
fail: it is the row's name for column 0, its city for column 1, its note for
column 2 and nil for any other column, negative ones included. -/
theorem RowCount_and_Value (m : UserModel) :
    m.RowCount = (m.items.length : Int) ∧
    ∀ row col : Int, 0 ≤ row → row < m.RowCount →
      ∃ item, m.items[row.toNat]? = some item ∧
        (col = 0 → m.Value row col = some (Cell.str item.Name)) ∧
        (col = 1 → m.Value row col = some (Cell.str item.City)) ∧
        (col = 2 → m.Value row col = some (Cell.str item.Note)) ∧
        (col ≠ 0 → col ≠ 1 → col ≠ 2 → m.Value row col = some Cell.nil) := by
  refine ⟨rfl, ?_⟩
  intro row col h0 h1
  obtain ⟨item, hitem, hv⟩ := Value_in_range m row col h0 h1
  refine ⟨item, hitem, ?_, ?_, ?_, ?_⟩
  · intro h; rw [hv]; simp [h]
  · intro h; rw [hv]; simp [h]
  · intro h; rw [hv]; simp [h]
  · intro c0 c1 c2; rw [hv]; simp [c0, c1, c2]

/-- The model of the save scenario has two rows and row 1, column 1 is
Tokyo; the empty model has no rows. -/
theorem RowCount_and_Value_witness :
    UserModel.RowCount { items := [alice, bob] } = 2 ∧
    UserModel.Value { items := [alice, bob] } 1 1 = some (Cell.str "Tokyo".toList) ∧
    UserModel.RowCount NewUserModel = 0 := by
  obtain ⟨hc, hv⟩ := RowCount_and_Value { items := [alice, bob] }
  obtain ⟨item, hitem, -, h1, -, -⟩ := hv 1 1 (by decide) (by decide)
  refine ⟨hc, ?_, (RowCount_and_Value NewUserModel).1⟩
  rw [h1 rfl]
  have : item = bob := by
    have h2 : ([alice, bob] : List User)[1]? = some bob := rfl
    exact Option.some.inj (hitem.symm.trans h2)
  rw [this]
  rfl

theorem saveUserToCSV_ok_iff (sys : SaveCalls) (file : Option GoString) (u : User) :
    (saveUserToCSV sys file u).ok = true ↔ sys.openErr = none ∧ sys.writeErr = none := by
  unfold saveUserToCSV
  cases h1 : sys.openErr <;> cases h2 : sys.writeErr <;> simp

theorem saveUserToCSV_no_success_dialog (sys : SaveCalls) (file : Option GoString) (u : User) :
    Msg "Saved successfully!".toList ∉ (saveUserToCSV sys file u).dialogs := by
  unfold saveUserToCSV
  cases h1 : sys.openErr <;> cases h2 : sys.writeErr <;> simp [Msg]

/-- C5: when `saveUserToCSV` returns true in the save handler, the row count
grows by exactly one, every earlier row reads as before, and the new last
row holds the name, city and note of the record built from the inputs. -/
theorem onSave_success (sys : SaveCalls) (s : Session)
    (h : (saveUserToCSV sys s.file s.formUser).ok = true) :
    (onSave sys s).model.RowCount = s.model.RowCount + 1 ∧
    (onSave sys s).model.items = s.model.items ++ [s.formUser] ∧
    (∀ row col, 0 ≤ row → row < s.model.RowCount →
      (onSave sys s).model.Value row col = s.model.Value row col) ∧
    (onSave sys s).model.Value ((onSave sys s).model.RowCount - 1) 0 =
      some (Cell.str s.formUser.Name) ∧
    (onSave sys s).model.Value ((onSave sys s).model.RowCount - 1) 1 =
      some (Cell.str s.formUser.City) ∧
    (onSave sys s).model.Value ((onSave sys s).model.RowCount - 1) 2 =
      some (Cell.str s.formUser.Note) := by
  have hitems : (onSave sys s).model.items = s.model.items ++ [s.formUser] := by
    simp [onSave, h]
  have hcount : (onSave sys s).model.RowCount = s.model.RowCount + 1 := by
    simp [UserModel.RowCount, hitems]
  have hlast : ((onSave sys s).model.RowCount - 1).toNat = s.model.items.length := by
    rw [hcount]; simp [UserModel.RowCount]
  have hget : (onSave sys s).model.items[s.model.items.length]? = some s.formUser := by
    rw [hitems]; simp
  have hnn : ¬ ((onSave sys s).model.RowCount - 1 < 0) := by
    rw [hcount]; simp [UserModel.RowCount]
  refine ⟨hcount, hitems, ?_, ?_, ?_, ?_⟩
  · intro row col h0 h1
    have hlt : row.toNat < s.model.items.length := by
      unfold UserModel.RowCount at h1
      omega
    unfold UserModel.Value
    rw [hitems, List.getElem?_append_left hlt]
  · unfold UserModel.Value
    rw [if_neg hnn, hlast, hget]; rfl
  · unfold UserModel.Value
    rw [if_neg hnn, hlast, hget]; rfl
  · unfold UserModel.Value
    rw [if_neg hnn, hlast, hget]; rfl

/-- Bob saved after Alice: two rows, and row 1 reads Bob, Tokyo and the
empty note. -/
theorem onSave_success_witness :
    (onSave SaveCalls.clean bobTyped).model.RowCount = 2 ∧
    (onSave SaveCalls.clean bobTyped).model.Value 1 0 = some (Cell.str "Bob".toList) ∧
    (onSave SaveCalls.clean bobTyped).model.Value 1 1 = some (Cell.str "Tokyo".toList) ∧
    (onSave SaveCalls.clean bobTyped).model.Value 1 2 = some (Cell.str []) :=
  ⟨(onSave_success SaveCalls.clean bobTyped rfl).1,
   (onSave_success SaveCalls.clean bobTyped rfl).2.2.2.1,
   (onSave_success SaveCalls.clean bobTyped rfl).2.2.2.2.1,
   (onSave_success SaveCalls.clean bobTyped rfl).2.2.2.2.2⟩

/-- C6: when `saveUserToCSV` returns false in the save handler, the record
list and the row count are unchanged, no reset signal is published, no
success dialog is shown, and the name, city and notes inputs keep their
text. -/
theorem onSave_failure (sys : SaveCalls) (s : Session)
    (h : (saveUserToCSV sys s.file s.formUser).ok = false) :
    (onSave sys s).model = s.model ∧
    (onSave sys s).model.RowCount = s.model.RowCount ∧
    (onSave sys s).resets = s.resets ∧
    (onSave sys s).dialogs = s.dialogs ++ (saveUserToCSV sys s.file s.formUser).dialogs ∧
    Msg "Saved successfully!".toList ∉ (saveUserToCSV sys s.file s.formUser).dialogs ∧
    (onSave sys s).nameInp = s.nameInp ∧
    (onSave sys s).descEdit = s.descEdit ∧
    (onSave sys s).cityCombo = s.cityCombo := by
  have hs : onSave sys s =
      { s with dialogs := s.dialogs ++ (saveUserToCSV sys s.file s.formUser).dialogs,
               file := (saveUserToCSV sys s.file s.formUser).file } := by
    simp [onSave, h]
  rw [hs]
  exact ⟨rfl, rfl, rfl, rfl, saveUserToCSV_no_success_dialog sys s.file s.formUser, rfl, rfl, rfl⟩

/-- A save whose open fails: the model, the reset count and the typed name
stay as they were. -/
theorem onSave_failure_witness :
    (onSave openDenied bobTyped).model = { items := [alice] } ∧
    (onSave openDenied bobTyped).resets = 1 ∧
    (onSave openDenied bobTyped).nameInp = "Bob".toList :=
  ⟨(onSave_failure openDenied bobTyped rfl).1,
   (onSave_failure openDenied bobTyped rfl).2.2.1,
   (onSave_failure openDenied bobTyped rfl).2.2.2.2.2.1⟩

/-- C9: when `users.csv` does not exist, or cannot be opened for another
reason, `loadUsers` returns no records and the model initialised from it has
no rows. -/
theorem loadUsers_open_failure (fault : Option GoString) (file : Option GoString)
    (err : GoString) (h : osOpen fault file = Except.error err) :
    loadUsers fault file = [] ∧ (initialModel fault file).RowCount = 0 := by
  have hl : loadUsers fault file = [] := by simp [loadUsers, h]
  exact ⟨hl, by simp [initialModel, UserModel.RowCount, hl]⟩

/-- The file is absent: nothing is loaded. -/
theorem loadUsers_open_failure_witness :
    loadUsers none none = [] ∧ (initialModel none none).RowCount = 0 :=
  loadUsers_open_failure none none "open users.csv: no such file or directory".toList rfl

/-- C7, the write that fails: when the file opens and `writer.Write` returns
an error, `saveUserToCSV` returns false and shows no dialog at all; the
dialog with the error text is shown only when the open fails.  And when the
write is buffered without error but the deferred flush fails, the function
returns true although nothing reached the file. -/
theorem saveUserToCSV_write_failure_is_silent (file : Option GoString) (u : User)
    (err : GoString) :
    (saveUserToCSV { openErr := none, writeErr := some err, flushOk := false } file u).ok
      = false ∧
    (saveUserToCSV { openErr := none, writeErr := some err, flushOk := false } file u).dialogs
      = [] ∧
    (saveUserToCSV { openErr := some err, writeErr := none, flushOk := false } file u).dialogs
      = [Msg ("Error: ".toList ++ err)] ∧
    (∀ sys : SaveCalls, (saveUserToCSV sys file u).dialogs ≠ [] ↔ sys.openErr ≠ none) ∧
    (saveUserToCSV flushLost file u).ok = true ∧
    (saveUserToCSV flushLost file u).file = some (file.getD []) := by
  refine ⟨rfl, rfl, rfl, ?_, rfl, rfl⟩
  intro sys
  unfold saveUserToCSV
  cases h1 : sys.openErr <;> cases h2 : sys.writeErr <;> simp

/-- C3, the scenario file: `ReadAll` stops with `ErrFieldCount` at the second
line, since the first line fixed one field per record, and returns no
records; `loadUsers` returns nothing, not the record Carl, Berlin, Note.
The same happens with the two lines in the other order. -/
theorem loadUsers_mixed_file_is_empty :
    Reader.ReadAll "OnlyOneField\nCarl,Berlin,Note\n".toList =
      Except.error CsvError.ErrFieldCount ∧
    loadUsers none (some "OnlyOneField\nCarl,Berlin,Note\n".toList) = [] ∧
    loadUsers none (some "Carl,Berlin,Note\nOnlyOneField\n".toList) = [] ∧
    loadUsers none (some "Carl,Berlin,Note\n".toList) =
      [{ Name := "Carl".toList, City := "Berlin".toList, Note := "Note".toList }] :=
  ⟨rfl, rfl, rfl, rfl⟩

/-! ## The CSV model on small inputs -/

/-- The reader and the writer on inputs whose outcome the documentation of
`encoding/csv` spells out: CR LF ends a line like LF; empty lines are
skipped; a quoted field may hold delimiters, line breaks and doubled quotes;
a quote in a non-quoted field is an error; every record must have as many
fields as the first; the writer quotes a field that holds a delimiter, a
quote or a line break, or that starts with a space. -/
theorem csv_examples :
    Reader.ReadAll "a,b\r\n\nc,d".toList =
      Except.ok [["a".toList, "b".toList], ["c".toList, "d".toList]] ∧
    Reader.ReadAll "x,\"y,1\ny\"\"2\",z\n".toList =
      Except.ok [["x".toList, "y,1\ny\"2".toList, "z".toList]] ∧
    Reader.ReadAll "a,b\"c\n".toList = Except.error CsvError.ErrBareQuote ∧
    Reader.ReadAll "a,\"b\"c\n".toList = Except.error CsvError.ErrQuote ∧
    Reader.ReadAll "a,\"bc\n".toList = Except.error CsvError.ErrQuote ∧
    Reader.ReadAll "a,b,c\nd,e\n".toList = Except.error CsvError.ErrFieldCount ∧
    Reader.ReadAll "a,b,c\nd,e,f,g\n".toList = Except.error CsvError.ErrFieldCount ∧
    Reader.ReadAll [] = Except.ok [] ∧
    Writer.Write ["a b".toList, " c".toList, "d\"e".toList, "f,g".toList, []] =
      "a b,\" c\",\"d\"\"e\",\"f,g\",\n".toList :=
  ⟨rfl, rfl, rfl, rfl, rfl, rfl, rfl, rfl, rfl⟩

/-! ## Lemmas: the lines of the reader -/

theorem readSlice_ne_nil (c : Char) (s : GoString) : (readSlice (c :: s)).1 ≠ [] := by
  unfold readSlice
  split <;> simp

theorem readSlice_found (s : GoString) (h : (readSlice s).2.1 = true) :
    ∃ pre, (readSlice s).1 = pre ++ [LF] ∧ LF ∉ pre := by
  induction s with
  | nil => simp [readSlice] at h
  | cons c s ih =>
    unfold readSlice at h ⊢
    by_cases hc : c = LF
    · simp only [hc, if_true]
      exact ⟨[], rfl, by simp⟩
    · simp only [hc, if_false] at h ⊢
      obtain ⟨pre, hp, hn⟩ := ih h
      refine ⟨c :: pre, by simp [hp], ?_⟩
      simp only [List.mem_cons, not_or]
      exact ⟨fun h => hc h.symm, hn⟩

theorem readSlice_not_found (s : GoString) (h : (readSlice s).2.1 = false) :
    LF ∉ (readSlice s).1 := by
  induction s with
  | nil => simp [readSlice]
  | cons c s ih =>
    unfold readSlice at h ⊢
    by_cases hc : c = LF
    · simp [hc] at h
    · simp only [hc, if_false] at h ⊢
      simp only [List.mem_cons, not_or]
      exact ⟨fun h => hc h.symm, ih h⟩

theorem normCRLF_of_last (l : GoString) (h : l.getLast? ≠ some LF) : normCRLF l = l := by
  unfold normCRLF
  simp only
  rw [if_neg]
  rintro ⟨-, -, h3⟩
  rw [List.getLast?_eq_getElem?] at h
  exact h h3

theorem normCRLF_concat (pre : GoString) (q : Char) :
    normCRLF (pre ++ [q, LF]) = if q = CR then pre ++ [LF] else pre ++ [q, LF] := by
  have g1 : (pre ++ [q, LF])[pre.length]? = some q := by
    rw [List.getElem?_append_right (le_refl _)]; simp
  have g2 : (pre ++ [q, LF])[pre.length + 1]? = some LF := by
    rw [List.getElem?_append_right (by omega)]; simp
  have e1 : (pre ++ [q, LF]).length - 2 = pre.length := by simp
  have e2 : (pre ++ [q, LF]).length - 1 = pre.length + 1 := by simp
  unfold normCRLF
  simp only [e1, e2, g1, g2, Option.some.injEq, and_true, List.take_left']
  have e3 : 2 ≤ (pre ++ [q, LF]).length := by simp
  simp [e3]

theorem normCRLF_LF : normCRLF [LF] = [LF] := by
  simp [normCRLF]

theorem exists_snoc (l : GoString) (h : l ≠ []) : ∃ init x, l = init ++ [x] :=
  ⟨l.dropLast, l.getLast h, (List.dropLast_append_getLast h).symm⟩

theorem getLast?_cons_snoc (c : Char) (l : GoString) (x : Char) :
    (c :: (l ++ [x])).getLast? = some x := by
  rw [← List.cons_append, List.getLast?_concat]

theorem dropLast_cons_snoc (c : Char) (l : GoString) (x : Char) :
    (c :: (l ++ [x])).dropLast = c :: l := by
  rw [← List.cons_append, List.dropLast_concat]

theorem normCRLF_cons_of_not_mem (c : Char) (l : GoString) (h : LF ∉ l) (hl : l ≠ []) :
    normCRLF (c :: l) = c :: l := by
  apply normCRLF_of_last
  obtain ⟨init, x, rfl⟩ := exists_snoc l hl
  rw [getLast?_cons_snoc]
  intro hx
  apply h
  simp only [Option.some.injEq] at hx
  simp [hx]

theorem normCRLF_of_not_mem (l : GoString) (h : LF ∉ l) : normCRLF l = l := by
  apply normCRLF_of_last
  intro hx
  exact h (List.mem_of_mem_getLast? hx)

theorem normCRLF_singleton (c : Char) : normCRLF [c] = [c] := by
  simp [normCRLF]

theorem normCRLF_dropFinalCR_cons (found : Bool) (c : Char) (raw : GoString) (hraw : raw ≠ [])
    (hfalse : found = false → LF ∉ raw)
    (htrue : found = true → ∃ pre, raw = pre ++ [LF])
    (hc : ¬ (c = CR ∧ raw = [LF])) :
    normCRLF (dropFinalCR found (c :: raw)) = c :: normCRLF (dropFinalCR found raw) := by
  cases found with
  | false =>
    have hn := hfalse rfl
    obtain ⟨init, x, rfl⟩ := exists_snoc raw hraw
    have hinit : LF ∉ init := fun h => hn (by simp [h])
    by_cases hxc : x = CR
    · have h1 : dropFinalCR false (init ++ [x]) = init := by
        simp [dropFinalCR, hxc]
      have h2 : dropFinalCR false (c :: (init ++ [x])) = c :: init := by
        simp only [dropFinalCR, getLast?_cons_snoc, dropLast_cons_snoc, hxc, and_self, if_true]
      rw [h1, h2, normCRLF_of_not_mem init hinit]
      by_cases hi : init = []
      · subst hi; exact normCRLF_singleton c
      · exact normCRLF_cons_of_not_mem c init hinit hi
    · have h1 : dropFinalCR false (init ++ [x]) = init ++ [x] := by
        simp [dropFinalCR, hxc]
      have h2 : dropFinalCR false (c :: (init ++ [x])) = c :: (init ++ [x]) := by
        simp only [dropFinalCR, getLast?_cons_snoc, Option.some.injEq, hxc, and_false, if_false]
      rw [h1, h2, normCRLF_of_not_mem _ hn]
      exact normCRLF_cons_of_not_mem c _ hn hraw
  | true =>
    obtain ⟨pre, rfl⟩ := htrue rfl
    have h1 : dropFinalCR true (pre ++ [LF]) = pre ++ [LF] := by simp [dropFinalCR]
    have h2 : dropFinalCR true (c :: (pre ++ [LF])) = c :: (pre ++ [LF]) := by
      simp [dropFinalCR]
    rw [h1, h2]
    by_cases hp : pre = []
    · subst hp
      have hcc : c ≠ CR := fun h => hc ⟨h, rfl⟩
      have := normCRLF_concat [] c
      simp only [List.nil_append, hcc, if_false] at this
      simp only [List.nil_append, this, normCRLF_LF]
    · obtain ⟨p2, q, rfl⟩ := exists_snoc pre hp
      have e1 : c :: (p2 ++ [q] ++ [LF]) = (c :: p2) ++ [q, LF] := by simp
      have e2 : p2 ++ [q] ++ [LF] = p2 ++ [q, LF] := by simp
      rw [e1, e2, normCRLF_concat, normCRLF_concat]
      by_cases hq : q = CR <;> simp [hq]

theorem readLine_nil : readLine [] = (none, []) := rfl

theorem readLine_cons (c : Char) (s : GoString) :
    readLine (c :: s) =
      (some (normCRLF (dropFinalCR (readSlice (c :: s)).2.1 (readSlice (c :: s)).1)),
        (readSlice (c :: s)).2.2) := by
  unfold readLine
  simp only
  rw [if_neg]
  intro h
  exact readSlice_ne_nil c s (List.length_eq_zero.mp h)

theorem readSlice_cons (c : Char) (t : GoString) (h : c ≠ LF) :
    readSlice (c :: t) = (c :: (readSlice t).1, (readSlice t).2) := by
  rw [readSlice, if_neg h]

/-- `readLines` lists what `readLine` returns call after call. -/
theorem readLines_readLine (inp : GoString) :
    readLines inp =
      match readLine inp with
      | (none, _) => []
      | (some l, rest) => l :: readLines rest := by
  induction inp with
  | nil => rfl
  | cons c t ih =>
    rw [readLine_cons]
    simp only
    by_cases h1 : c = LF
    · subst h1
      cases t <;> simp [readLines, readSlice, dropFinalCR, normCRLF]
    · cases t with
      | nil =>
        by_cases h2 : c = CR
        · subst h2; simp [readLines, readSlice, dropFinalCR, normCRLF, h1]
        · simp [readLines, readSlice, dropFinalCR, normCRLF, h1, h2]
      | cons d s =>
        by_cases h2 : c = CR ∧ d = LF
        · obtain ⟨hc, hd⟩ := h2
          subst hc
          subst hd
          have := normCRLF_concat [] CR
          simp only [List.nil_append, if_true] at this
          simp [readLines, readSlice, dropFinalCR, h1, this]
        · rw [readLine_cons] at ih
          simp only at ih
          have hrl : readLines (c :: d :: s) =
              match readLines (d :: s) with
              | [] => [[c]]
              | l :: ls => (c :: l) :: ls := by
            simp only [readLines, h1, h2, if_false]
          rw [hrl, ih, readSlice_cons c (d :: s) h1]
          simp only
          rw [normCRLF_dropFinalCR_cons _ c _ (readSlice_ne_nil d s)]
          · intro hf
            exact readSlice_not_found _ hf
          · intro hf
            obtain ⟨pre, hp, -⟩ := readSlice_found _ hf
            exact ⟨pre, hp⟩
          · rintro ⟨hc, hr⟩
            apply h2
            refine ⟨hc, ?_⟩
            unfold readSlice at hr
            by_cases hd : d = LF
            · exact hd
            · rw [if_neg hd] at hr
              simp only [List.cons.injEq] at hr
              exact absurd hr.1 hd

/-! ## Lemmas: the reader along a stream -/

theorem readLines_LF (s : GoString) : readLines (LF :: s) = [LF] :: readLines s := by
  cases s with
  | nil => simp [readLines]
  | cons d s => simp [readLines]

theorem readLines_CR_LF (s : GoString) : readLines (CR :: LF :: s) = [LF] :: readLines s := by
  have h : CR ≠ LF := by decide
  simp [readLines, h]

theorem cursor_LF (s : GoString) : cursor (LF :: s) = ([LF], readLines s) := by
  simp [cursor, readLines_LF]

theorem cursor_CR_LF (s : GoString) : cursor (CR :: LF :: s) = ([LF], readLines s) := by
  simp [cursor, readLines_CR_LF]

/-- A character that neither ends a line nor is a CR about to be dropped
stays at the head of the current line. -/
theorem cursor_cons (c : Char) (s : GoString) (h1 : c ≠ LF)
    (h2 : c = CR → ∃ d t, s = d :: t ∧ d ≠ LF) :
    cursor (c :: s) = (c :: (cursor s).1, (cursor s).2) := by
  cases s with
  | nil =>
    have hc : c ≠ CR := by
      intro h
      obtain ⟨d, t, ht, -⟩ := h2 h
      cases ht
    simp [cursor, readLines, h1, hc]
  | cons d t =>
    have hcd : ¬ (c = CR ∧ d = LF) := by
      rintro ⟨hc, hd⟩
      obtain ⟨d2, t2, ht, hd2⟩ := h2 hc
      cases ht
      exact hd2 hd
    simp only [cursor, readLines, h1, hcd, if_false]
    cases readLines (d :: t) <;> rfl

theorem readAllLines_pending (fpr : Nat) (records : List (List GoString))
    (fields : List GoString) (cur : GoString) (lines : List GoString) :
    readAllLines fpr (some (fields, cur)) records lines =
      match lines with
      | [] => Except.error CsvError.ErrQuote
      | l :: ls => afterLine fpr records ls (scan Mode.quoted fields cur l) := by
  cases lines with
  | nil => simp [readAllLines]
  | cons l ls =>
    simp only [readAllLines]
    rw [if_neg (by simp)]
    cases scan Mode.quoted fields cur l <;> rfl

theorem readAllLines_start (fpr : Nat) (records : List (List GoString))
    (c : Char) (l : GoString) (ls : List GoString) (hc : c ≠ LF) :
    readAllLines fpr none records ((c :: l) :: ls) =
      afterLine fpr records ls (scan Mode.fieldStart [] [] (c :: l)) := by
  simp only [readAllLines]
  rw [if_neg (by simp [hc])]
  cases scan Mode.fieldStart [] [] (c :: l) <;> rfl

theorem scan_quoted_cons (fs : List GoString) (cur : GoString) (c : Char) (cs : GoString)
    (h : c ≠ dquote) :
    scan Mode.quoted fs cur (c :: cs) = scan Mode.quoted fs (cur ++ [c]) cs := by
  cases cs <;> simp [scan, h]

theorem scan_quoted_quote_quote (fs : List GoString) (cur : GoString) (cs : GoString) :
    scan Mode.quoted fs cur (dquote :: dquote :: cs) =
      scan Mode.quoted fs (cur ++ [dquote]) cs := by
  simp [scan]

theorem scan_quoted_quote_comma (fs : List GoString) (cur : GoString) (cs : GoString) :
    scan Mode.quoted fs cur (dquote :: comma :: cs) =
      scan Mode.fieldStart (fs ++ [cur]) [] cs := by
  have h : comma ≠ dquote := by decide
  simp [scan, h]

theorem scan_quoted_quote_LF (fs : List GoString) (cur : GoString) :
    scan Mode.quoted fs cur [dquote, LF] = LineResult.record (fs ++ [cur]) := by
  have h1 : LF ≠ dquote := by decide
  have h2 : LF ≠ comma := by decide
  simp [scan, h1, h2]

theorem scan_plain_cons (m : Mode) (fs : List GoString) (cur : GoString) (c : Char)
    (cs : GoString) (hm : m ≠ Mode.quoted) (h1 : c ≠ comma) (h2 : c ≠ LF) (h3 : c ≠ dquote) :
    scan m fs cur (c :: cs) = scan Mode.bare fs (cur ++ [c]) cs := by
  cases m <;> simp_all [scan]

theorem scan_plain_comma (m : Mode) (fs : List GoString) (cur : GoString) (cs : GoString)
    (hm : m ≠ Mode.quoted) :
    scan m fs cur (comma :: cs) = scan Mode.fieldStart (fs ++ [cur]) [] cs := by
  cases m <;> simp_all [scan]

theorem scan_plain_LF (m : Mode) (fs : List GoString) (cur : GoString)
    (hm : m ≠ Mode.quoted) :
    scan m fs cur [LF] = LineResult.record (fs ++ [cur]) := by
  have h : LF ≠ comma := by decide
  cases m <;> simp_all [scan]

theorem scan_start_quote (fs : List GoString) (cur : GoString) (cs : GoString) :
    scan Mode.fieldStart fs cur (dquote :: cs) = scan Mode.quoted fs [] cs := by
  have h1 : dquote ≠ comma := by decide
  have h2 : dquote ≠ LF := by decide
  simp [scan, h1, h2]

section Run

variable (fpr : Nat) (records : List (List GoString))

theorem run_quoted_cons (fs : List GoString) (cur : GoString) (c : Char) (s : GoString)
    (h : c ≠ dquote) (h1 : c ≠ LF) (h2 : c = CR → ∃ d t, s = d :: t ∧ d ≠ LF) :
    run fpr records Mode.quoted fs cur (c :: s) =
      run fpr records Mode.quoted fs (cur ++ [c]) s := by
  simp only [run, cursor_cons c s h1 h2, scan_quoted_cons fs cur c _ h]

theorem run_quoted_LF (fs : List GoString) (cur : GoString) (s : GoString) :
    run fpr records Mode.quoted fs cur (LF :: s) =
      run fpr records Mode.quoted fs (cur ++ [LF]) s := by
  have h : LF ≠ dquote := by decide
  simp only [run, cursor_LF, scan_quoted_cons fs cur LF _ h]
  rw [scan.eq_1]
  show readAllLines fpr (some (fs, cur ++ [LF])) records (readLines s) = _
  rw [readAllLines_pending]
  unfold cursor
  cases readLines s with
  | nil => rw [scan.eq_1]; simp only [afterLine, readAllLines]
  | cons l ls => rfl

theorem run_quoted_CR_LF (fs : List GoString) (cur : GoString) (s : GoString) :
    run fpr records Mode.quoted fs cur (CR :: LF :: s) =
      run fpr records Mode.quoted fs (cur ++ [LF]) s := by
  have h : LF ≠ dquote := by decide
  simp only [run, cursor_CR_LF, scan_quoted_cons fs cur LF _ h]
  rw [scan.eq_1]
  show readAllLines fpr (some (fs, cur ++ [LF])) records (readLines s) = _
  rw [readAllLines_pending]
  unfold cursor
  cases readLines s with
  | nil => rw [scan.eq_1]; simp only [afterLine, readAllLines]
  | cons l ls => rfl

theorem run_quoted_quote_quote (fs : List GoString) (cur : GoString) (s : GoString) :
    run fpr records Mode.quoted fs cur (dquote :: dquote :: s) =
      run fpr records Mode.quoted fs (cur ++ [dquote]) s := by
  have h1 : dquote ≠ LF := by decide
  have h2 : dquote ≠ CR := by decide
  have e1 := cursor_cons dquote s h1 (fun h => absurd h h2)
  have e2 := cursor_cons dquote (dquote :: s) h1 (fun h => absurd h h2)
  simp only [run, e2, e1, scan_quoted_quote_quote]

theorem run_quoted_quote_comma (fs : List GoString) (cur : GoString) (s : GoString) :
    run fpr records Mode.quoted fs cur (dquote :: comma :: s) =
      run fpr records Mode.fieldStart (fs ++ [cur]) [] s := by
  have h1 : dquote ≠ LF := by decide
  have h2 : dquote ≠ CR := by decide
  have h3 : comma ≠ LF := by decide
  have h4 : comma ≠ CR := by decide
  have e1 := cursor_cons comma s h3 (fun h => absurd h h4)
  have e2 := cursor_cons dquote (comma :: s) h1 (fun h => absurd h h2)
  simp only [run, e2, e1, scan_quoted_quote_comma]

theorem run_quoted_quote_LF (fs : List GoString) (cur : GoString) (s : GoString) :
    run fpr records Mode.quoted fs cur (dquote :: LF :: s) =
      afterLine fpr records (readLines s) (LineResult.record (fs ++ [cur])) := by
  have h1 : dquote ≠ LF := by decide
  have h2 : dquote ≠ CR := by decide
  have e2 := cursor_cons dquote (LF :: s) h1 (fun h => absurd h h2)
  simp only [run, e2, cursor_LF, scan_quoted_quote_LF]

theorem run_plain_cons (m : Mode) (fs : List GoString) (cur : GoString) (c : Char)
    (s : GoString) (hm : m ≠ Mode.quoted) (h1 : c ≠ comma) (h2 : c ≠ LF) (h3 : c ≠ dquote)
    (h4 : c ≠ CR) :
    run fpr records m fs cur (c :: s) = run fpr records Mode.bare fs (cur ++ [c]) s := by
  simp only [run, cursor_cons c s h2 (fun h => absurd h h4),
    scan_plain_cons m fs cur c _ hm h1 h2 h3]

theorem run_plain_comma (m : Mode) (fs : List GoString) (cur : GoString) (s : GoString)
    (hm : m ≠ Mode.quoted) :
    run fpr records m fs cur (comma :: s) =
      run fpr records Mode.fieldStart (fs ++ [cur]) [] s := by
  have h3 : comma ≠ LF := by decide
  have h4 : comma ≠ CR := by decide
  simp only [run, cursor_cons comma s h3 (fun h => absurd h h4),
    scan_plain_comma m fs cur _ hm]

theorem run_plain_LF (m : Mode) (fs : List GoString) (cur : GoString) (s : GoString)
    (hm : m ≠ Mode.quoted) :
    run fpr records m fs cur (LF :: s) =
      afterLine fpr records (readLines s) (LineResult.record (fs ++ [cur])) := by
  simp only [run, cursor_LF, scan_plain_LF m fs cur hm]

theorem run_start_quote (fs : List GoString) (cur : GoString) (s : GoString) :
    run fpr records Mode.fieldStart fs cur (dquote :: s) =
      run fpr records Mode.quoted fs [] s := by
  have h1 : dquote ≠ LF := by decide
  have h2 : dquote ≠ CR := by decide
  simp only [run, cursor_cons dquote s h1 (fun h => absurd h h2), scan_start_quote]

/-- At the start of a record, a stream that does not begin with a line end
is read as a record. -/
theorem readAllLines_run (c : Char) (s : GoString) (h1 : c ≠ LF) (h2 : c ≠ CR) :
    readAllLines fpr none records (readLines (c :: s)) =
      run fpr records Mode.fieldStart [] [] (c :: s) := by
  have e := cursor_cons c s h1 (fun h => absurd h h2)
  have hl : readLines (c :: s) = (c :: (cursor s).1) :: (cursor s).2 := by
    have : cursor (c :: s) = (c :: (cursor s).1, (cursor s).2) := e
    unfold cursor at this
    cases hr : readLines (c :: s) with
    | nil => rw [hr] at this; simp at this
    | cons l ls =>
      rw [hr] at this
      simp only [Prod.mk.injEq] at this
      rw [this.1, this.2]
      rfl
  rw [hl, readAllLines_start fpr records c _ _ h1]
  simp only [run, e]

end Run

/-! ## Lemmas: reading back what the writer wrote -/

section ReadBack

variable (fpr : Nat) (records : List (List GoString))

theorem writeQuoted_head (d : Char) (s t : GoString) (hd : d ≠ LF) :
    ∃ e r, writeQuoted (d :: s) ++ dquote :: t = e :: r ∧ e ≠ LF := by
  have h1 : dquote ≠ LF := by decide
  by_cases h : d = dquote
  · exact ⟨dquote, dquote :: (writeQuoted s ++ dquote :: t), by simp [writeQuoted, h], h1⟩
  · exact ⟨d, writeQuoted s ++ dquote :: t, by simp [writeQuoted, h], hd⟩

/-- The body of a quoted field is read back with every CR LF pair turned
into LF. -/
theorem run_quoted_body (fs : List GoString) (f : GoString) (cur : GoString) (t : GoString) :
    run fpr records Mode.quoted fs cur (writeQuoted f ++ dquote :: t) =
      run fpr records Mode.quoted fs (cur ++ dropCRLF f) (dquote :: t) := by
  have hq : dquote ≠ LF := by decide
  induction f using dropCRLF.induct generalizing cur with
  | case1 => simp [writeQuoted, dropCRLF]
  | case2 c =>
    by_cases h : c = dquote
    · subst h
      simp only [writeQuoted, if_true, dropCRLF, List.cons_append, List.nil_append]
      exact run_quoted_quote_quote fpr records fs cur _
    · simp only [writeQuoted, h, if_false, dropCRLF, List.cons_append, List.nil_append]
      by_cases hl : c = LF
      · subst hl
        exact run_quoted_LF fpr records fs cur _
      · exact run_quoted_cons fpr records fs cur c _ h hl (fun _ => ⟨dquote, t, rfl, hq⟩)
  | case3 c d s hcd ih =>
    obtain ⟨hc, hd⟩ := hcd
    subst hc
    subst hd
    have h1 : CR ≠ dquote := by decide
    have h2 : LF ≠ dquote := by decide
    simp only [writeQuoted, h1, h2, if_false, dropCRLF, and_self, if_true, List.cons_append]
    rw [run_quoted_CR_LF, ih]
    simp
  | case4 c d s hcd ih =>
    have hdrop : dropCRLF (c :: d :: s) = c :: dropCRLF (d :: s) := by
      simp [dropCRLF, hcd]
    rw [hdrop]
    have hcur : cur ++ c :: dropCRLF (d :: s) = (cur ++ [c]) ++ dropCRLF (d :: s) := by simp
    rw [hcur, ← ih (cur ++ [c])]
    by_cases h : c = dquote
    · subst h
      have : writeQuoted (dquote :: d :: s) = dquote :: dquote :: writeQuoted (d :: s) := by
        simp [writeQuoted]
      rw [this]
      exact run_quoted_quote_quote fpr records fs cur _
    · have : writeQuoted (c :: d :: s) = c :: writeQuoted (d :: s) := by
        rw [writeQuoted, if_neg h]
      rw [this]
      by_cases hl : c = LF
      · subst hl
        exact run_quoted_LF fpr records fs cur _
      · refine run_quoted_cons fpr records fs cur c _ h hl ?_
        intro hc
        have hd : d ≠ LF := fun hd => hcd ⟨hc, hd⟩
        exact writeQuoted_head d s t hd

theorem run_bare_body (fs : List GoString) (f : GoString) (cur : GoString) (t : GoString)
    (hf : ∀ c ∈ f, special c = false) :
    run fpr records Mode.bare fs cur (f ++ t) = run fpr records Mode.bare fs (cur ++ f) t := by
  induction f generalizing cur with
  | nil => simp
  | cons c f ih =>
    have hc := hf c (List.mem_cons_self _ _)
    simp only [special, Bool.or_eq_false_iff, beq_eq_false_iff_ne, ne_eq] at hc
    obtain ⟨⟨⟨h1, h2⟩, h3⟩, h4⟩ := hc
    rw [List.cons_append, run_plain_cons fpr records Mode.bare fs cur c _ (by decide) h4 h1 h3 h2,
      ih (cur ++ [c]) (fun x hx => hf x (List.mem_cons_of_mem _ hx))]
    simp

/-- A field written without quotes is read up to the next delimiter or the
end of the line, in a mode that is not the quoted one. -/
theorem run_plain_body (fs : List GoString) (f : GoString) (t : GoString)
    (hf : ∀ c ∈ f, special c = false) :
    ∃ m, m ≠ Mode.quoted ∧
      run fpr records Mode.fieldStart fs [] (f ++ t) = run fpr records m fs f t := by
  cases f with
  | nil => exact ⟨Mode.fieldStart, by decide, rfl⟩
  | cons c f =>
    refine ⟨Mode.bare, by decide, ?_⟩
    have hc := hf c (List.mem_cons_self _ _)
    simp only [special, Bool.or_eq_false_iff, beq_eq_false_iff_ne, ne_eq] at hc
    obtain ⟨⟨⟨h1, h2⟩, h3⟩, h4⟩ := hc
    rw [List.cons_append,
      run_plain_cons fpr records Mode.fieldStart fs [] c _ (by decide) h4 h1 h3 h2,
      run_bare_body fpr records fs f _ t (fun x hx => hf x (List.mem_cons_of_mem _ hx))]
    simp

theorem not_special_of_not_needsQuotes (f : GoString) (h : fieldNeedsQuotes f = false) :
    ∀ c ∈ f, special c = false := by
  cases f with
  | nil => intro c hc; cases hc
  | cons r1 rest =>
    unfold fieldNeedsQuotes at h
    simp only at h
    split at h
    · cases h
    · split at h
      · cases h
      · rename_i hany
        intro c hc
        by_contra hsp
        exact hany (List.any_eq_true.mpr ⟨c, hc, by simpa using hsp⟩)

theorem dropCRLF_of_no_CR (f : GoString) (h : ∀ c ∈ f, c ≠ CR) : dropCRLF f = f := by
  induction f using dropCRLF.induct with
  | case1 => rfl
  | case2 c => rfl
  | case3 c d s hcd ih => exact absurd hcd.1 (h c (List.mem_cons_self _ _))
  | case4 c d s hcd ih =>
    simp only [dropCRLF, hcd, if_false]
    rw [ih (fun x hx => h x (List.mem_cons_of_mem _ hx))]

theorem dropCRLF_of_not_special (f : GoString) (h : ∀ c ∈ f, special c = false) :
    dropCRLF f = f := by
  apply dropCRLF_of_no_CR
  intro c hc hcr
  have := h c hc
  subst hcr
  revert this
  decide

/-- A written field followed by a delimiter is read back as one field. -/
theorem run_field_comma (fs : List GoString) (f : GoString) (t : GoString) :
    run fpr records Mode.fieldStart fs [] (writeField f ++ comma :: t) =
      run fpr records Mode.fieldStart (fs ++ [dropCRLF f]) [] t := by
  unfold writeField
  cases hq : fieldNeedsQuotes f with
  | true =>
    simp only [if_true, List.cons_append, List.append_assoc, List.singleton_append]
    rw [run_start_quote, run_quoted_body, List.nil_append, List.nil_append,
      run_quoted_quote_comma]
  | false =>
    simp only [Bool.false_eq_true, if_false]
    have hns := not_special_of_not_needsQuotes f hq
    obtain ⟨m, hm, e⟩ := run_plain_body fpr records fs f (comma :: t) hns
    rw [e, run_plain_comma fpr records m fs f t hm, dropCRLF_of_not_special f hns]

/-- A written field followed by the line end completes the record. -/
theorem run_field_LF (fs : List GoString) (f : GoString) (t : GoString) :
    run fpr records Mode.fieldStart fs [] (writeField f ++ LF :: t) =
      afterLine fpr records (readLines t) (LineResult.record (fs ++ [dropCRLF f])) := by
  unfold writeField
  cases hq : fieldNeedsQuotes f with
  | true =>
    simp only [if_true, List.cons_append, List.append_assoc, List.singleton_append]
    rw [run_start_quote, run_quoted_body, List.nil_append, List.nil_append,
      run_quoted_quote_LF]
  | false =>
    simp only [Bool.false_eq_true, if_false]
    have hns := not_special_of_not_needsQuotes f hq
    obtain ⟨m, hm, e⟩ := run_plain_body fpr records fs f (LF :: t) hns
    rw [e, run_plain_LF fpr records m fs f t hm, dropCRLF_of_not_special f hns]

theorem writeField_comma_head (f : GoString) (t : GoString) :
    ∃ c s, writeField f ++ comma :: t = c :: s ∧ c ≠ LF ∧ c ≠ CR := by
  unfold writeField
  cases hq : fieldNeedsQuotes f with
  | true =>
    exact ⟨dquote, writeQuoted f ++ dquote :: comma :: t, by simp, by decide, by decide⟩
  | false =>
    simp only [Bool.false_eq_true, if_false]
    have hns := not_special_of_not_needsQuotes f hq
    cases f with
    | nil => exact ⟨comma, t, rfl, by decide, by decide⟩
    | cons c f =>
      have hc := hns c (List.mem_cons_self _ _)
      simp only [special, Bool.or_eq_false_iff, beq_eq_false_iff_ne, ne_eq] at hc
      exact ⟨c, f ++ comma :: t, rfl, hc.1.1.1, hc.1.1.2⟩

theorem Write_three (a b c : GoString) (rest : GoString) :
    Writer.Write [a, b, c] ++ rest =
      writeField a ++ comma :: (writeField b ++ comma :: (writeField c ++ LF :: rest)) := by
  simp [Writer.Write, writeFields]

/-- One written record at the head of the stream is read back as a record
of its three fields, each with CR LF turned into LF. -/
theorem readAllLines_Write (u : User) (rest : GoString) (h : fpr = 0 ∨ fpr = 3) :
    readAllLines fpr none records (readLines (Writer.Write [u.Name, u.City, u.Note] ++ rest)) =
      readAllLines 3 none
        (records ++ [[dropCRLF u.Name, dropCRLF u.City, dropCRLF u.Note]]) (readLines rest) := by
  rw [Write_three]
  obtain ⟨c, s, hs, h1, h2⟩ := writeField_comma_head u.Name
    (writeField u.City ++ comma :: (writeField u.Note ++ LF :: rest))
  rw [hs, readAllLines_run fpr records c s h1 h2, ← hs, run_field_comma, run_field_comma,
    run_field_LF]
  rcases h with h | h <;> subst h <;> simp [afterLine]

end ReadBack

theorem readAllLines_fileOf (us : List User) (fpr : Nat) (records : List (List GoString))
    (h : fpr = 0 ∨ fpr = 3) :
    readAllLines fpr none records (readLines (fileOf us)) =
      Except.ok (records ++ us.map
        (fun u => [dropCRLF u.Name, dropCRLF u.City, dropCRLF u.Note])) := by
  induction us generalizing fpr records with
  | nil => simp [fileOf, readLines, readAllLines]
  | cons u us ih =>
    rw [fileOf, readAllLines_Write fpr records u (fileOf us) h, ih 3 _ (Or.inr rfl)]
    simp

theorem usersOf_three (us : List User) :
    usersOf (us.map (fun u => [dropCRLF u.Name, dropCRLF u.City, dropCRLF u.Note])) =
      us.map User.reloaded := by
  induction us with
  | nil => rfl
  | cons u us ih => simp [usersOf, ih, User.reloaded]

/-- A file holding the written lines of `us` loads as `us`, each field with
CR LF turned into LF. -/
theorem loadUsers_fileOf (us : List User) :
    loadUsers none (some (fileOf us)) = us.map User.reloaded := by
  simp only [loadUsers, osOpen, Reader.ReadAll, readAllLines_fileOf us 0 [] (Or.inl rfl),
    List.nil_append, usersOf_three]

/-! ## Theorems: saving, then loading -/

theorem dropCRLF_of_crlfFree (f : GoString) (h : crlfFree f = true) : dropCRLF f = f := by
  induction f using dropCRLF.induct with
  | case1 => rfl
  | case2 c => rfl
  | case3 c d s hcd ih =>
    simp [crlfFree, hcd.1, hcd.2] at h
  | case4 c d s hcd ih =>
    simp only [crlfFree, Bool.and_eq_true] at h
    simp only [dropCRLF, hcd, if_false]
    rw [ih h.2]

theorem reloaded_of_crlfFree (u : User)
    (h : crlfFree u.Name = true ∧ crlfFree u.City = true ∧ crlfFree u.Note = true) :
    u.reloaded = u := by
  simp [User.reloaded, dropCRLF_of_crlfFree _ h.1, dropCRLF_of_crlfFree _ h.2.1,
    dropCRLF_of_crlfFree _ h.2.2]

theorem saveUserToCSV_file (sys : SaveCalls) (file : Option GoString) (u : User)
    (hok : (saveUserToCSV sys file u).ok = true) (hflush : sys.flushOk = true) :
    (saveUserToCSV sys file u).file =
      some (file.getD [] ++ Writer.Write [u.Name, u.City, u.Note]) := by
  obtain ⟨h1, h2⟩ := (saveUserToCSV_ok_iff sys file u).mp hok
  simp [saveUserToCSV, h1, h2, hflush]

theorem saveAll_some (content : GoString) (saves : List (SaveCalls × User))
    (hs : savesSucceed (some content) saves = true) :
    saveAll (some content) saves = some (content ++ fileOf (saves.map Prod.snd)) := by
  induction saves generalizing content with
  | nil => simp [saveAll, fileOf]
  | cons p rest ih =>
    obtain ⟨sys, u⟩ := p
    simp only [savesSucceed, Bool.and_eq_true] at hs
    obtain ⟨⟨hok, hflush⟩, hrest⟩ := hs
    have hf := saveUserToCSV_file sys (some content) u hok hflush
    rw [hf] at hrest
    simp only [saveAll, hf, List.map_cons, fileOf]
    rw [ih _ hrest]
    simp

theorem saveAll_fresh (file : Option GoString) (saves : List (SaveCalls × User))
    (hfile : file = none ∨ file = some []) (hs : savesSucceed file saves = true) :
    loadUsers none (saveAll file saves) = (saves.map Prod.snd).map User.reloaded := by
  cases saves with
  | nil =>
    rcases hfile with h | h <;> subst h <;> rfl
  | cons p rest =>
    obtain ⟨sys, u⟩ := p
    simp only [savesSucceed, Bool.and_eq_true] at hs
    obtain ⟨⟨hok, hflush⟩, hrest⟩ := hs
    have hf := saveUserToCSV_file sys file u hok hflush
    have hnil : file.getD [] = [] := by
      rcases hfile with h | h <;> subst h <;> rfl
    rw [hnil, List.nil_append] at hf
    rw [hf] at hrest
    simp only [saveAll, hf]
    rw [saveAll_some _ rest hrest, ← fileOf, loadUsers_fileOf]
    rfl

/-- C4, as amended: starting from an absent or empty file, after any run of
`saveUserToCSV` calls that each return true and whose flush puts the line
into the file, `loadUsers` (opening the file without error) returns as many
records as were saved, in the order of the saves, and the i-th is the i-th
saved record with every CR LF pair in its name, city and note turned into
LF; it is the saved record itself when no field holds a CR right before a
LF.  After the saves Alice, London, VIP and Bob, Tokyo with an empty note the
file holds the two lines `Alice,London,VIP` and `Bob,Tokyo,`. -/
theorem save_then_load (file : Option GoString) (saves : List (SaveCalls × User))
    (hfile : file = none ∨ file = some []) (hs : savesSucceed file saves = true) :
    loadUsers none (saveAll file saves) = (saves.map Prod.snd).map User.reloaded ∧
    (loadUsers none (saveAll file saves)).length = saves.length ∧
    ((∀ p ∈ saves, crlfFree p.2.Name = true ∧ crlfFree p.2.City = true ∧
        crlfFree p.2.Note = true) →
      loadUsers none (saveAll file saves) = saves.map Prod.snd) ∧
    saveAll none [(SaveCalls.clean, alice), (SaveCalls.clean, bob)] =
      some "Alice,London,VIP\nBob,Tokyo,\n".toList := by
  have h := saveAll_fresh file saves hfile hs
  refine ⟨h, by rw [h]; simp, ?_, rfl⟩
  intro hfree
  rw [h, List.map_map]
  apply List.map_congr_left
  intro p hp
  exact reloaded_of_crlfFree p.2 (hfree p hp)

/-- Alice and Bob saved into an absent file are loaded back as they were. -/
theorem save_then_load_witness :
    loadUsers none (saveAll none [(SaveCalls.clean, alice), (SaveCalls.clean, bob)]) =
      [alice, bob] :=
  (save_then_load none [(SaveCalls.clean, alice), (SaveCalls.clean, bob)] (Or.inl rfl) rfl).2.2.1
    (by decide)

/-- C4 as stated fails.  A record whose note holds CR LF, saved by a call
that succeeds, is loaded with LF alone in the note: the reader drops a CR
before a LF.  And a call whose buffered write succeeds returns true also
when its flush fails, so that nothing of the record is there to load. -/
theorem save_then_load_not_identity :
    savesSucceed none [(SaveCalls.clean, carol)] = true ∧
    loadUsers none (saveAll none [(SaveCalls.clean, carol)]) =
      [{ Name := "Carol".toList, City := "Berlin".toList, Note := "line1\nline2".toList }] ∧
    loadUsers none (saveAll none [(SaveCalls.clean, carol)]) ≠ [carol] ∧
    (saveUserToCSV flushLost none alice).ok = true ∧
    loadUsers none (saveAll none [(flushLost, alice)]) = [] :=
  ⟨rfl, rfl, by decide, rfl, rfl⟩

end WalkWrapper
